import Mathlib

/-!
# DecodeNote core: shallow embedding and verification

A shallow embedding of the DecodeNote core (`src/utils/nostr.ts`): the input
classifier `parseInput`, the bech32/TLV identifier codec
(`decodeBech32Identifier`, `decodeTLV`, `bytesToNumber`, `bytesToHex`) and the
event-integrity validator `validateEvent`, together with theorems settling the
frozen claims about them.

Modelling conventions:
* JS strings are `List Char` (`Str`); JS `Uint8Array`s are `List Nat` with
  every element `< 256` where the code guarantees it.
* JS numbers appearing in the core are integers, modelled as `Nat`/`Int`;
  the 32-bit signed shift of `<<` is modelled explicitly (`jsShl8`).
* Functions that can throw in JS return `Option`/`Except`; catch blocks
  become `match`es on those values.
* External primitives keep their standard semantics: `crypto.subtle.digest`
  with `'SHA-256'` is the FIPS 180-4 SHA-256 function (modelled in full),
  `bech32`/`fromWords` from `@scure/base` follow that library's code, and
  `schnorr.verify` from `@noble/secp256k1` is an explicit parameter of the
  validator (theorems about the validator hold for every verifier).
-/

/-- JS strings, modelled as lists of unicode characters. -/
abbrev Str := List Char

/-! ## Basic string helpers (JS `trim`, `toLowerCase`, hex rendering) -/

/-- The whitespace class of JS `String.prototype.trim` (WhiteSpace and
LineTerminator code points). -/
def isJsWhitespace (c : Char) : Bool :=
  c == ' ' || c == '\t' || c == '\n' || c == '\r' ||
  c == '\x0b' || c == '\x0c' ||
  c.toNat == 0xa0 || c.toNat == 0xfeff ||
  c.toNat == 0x1680 || (0x2000 ≤ c.toNat && c.toNat ≤ 0x200a) ||
  c.toNat == 0x2028 || c.toNat == 0x2029 || c.toNat == 0x202f ||
  c.toNat == 0x205f || c.toNat == 0x3000

/-- Drop trailing JS whitespace. -/
def trimRight (s : Str) : Str :=
  (s.reverse.dropWhile isJsWhitespace).reverse

/-- JS `input.trim()`: strip leading and trailing whitespace. -/
def jsTrim (s : Str) : Str :=
  trimRight (s.dropWhile isJsWhitespace)

/-- ASCII lower-casing of one character; JS `toLowerCase` agrees with this on
the ASCII strings the core manipulates. -/
def asciiLower (c : Char) : Char :=
  if 'A' ≤ c && c ≤ 'Z' then Char.ofNat (c.toNat + 32) else c

/-- ASCII upper-casing of one character (used by the bech32 mixed-case check). -/
def asciiUpper (c : Char) : Char :=
  if 'a' ≤ c && c ≤ 'z' then Char.ofNat (c.toNat - 32) else c

/-- Value of a hexadecimal digit (either case), as `parseInt(_, 16)` reads it. -/
def hexVal (c : Char) : Option Nat :=
  if '0' ≤ c && c ≤ '9' then some (c.toNat - 48)
  else if 'a' ≤ c && c ≤ 'f' then some (c.toNat - 87)
  else if 'A' ≤ c && c ≤ 'F' then some (c.toNat - 55)
  else none

/-- The lowercase hex digit for `d < 16`, as JS `Number.prototype.toString(16)`
renders one digit. -/
def hexDigitChar (d : Nat) : Char :=
  if d < 10 then Char.ofNat (48 + d) else Char.ofNat (87 + d)

/-- Digit loop of `toString(16)`. The fuel only makes the recursion
structural; `natToHexStr` passes `n + 1`, an upper bound on the digit count
that the division by 16 can never exhaust. -/
def natToHexStrGo : Nat → Nat → Str
  | 0, _ => []
  | fuel + 1, n =>
    if n < 16 then [hexDigitChar n]
    else natToHexStrGo fuel (n / 16) ++ [hexDigitChar (n % 16)]

/-- JS `n.toString(16)`: lowercase hex digits, no leading zeros (except "0"). -/
def natToHexStr (n : Nat) : Str := natToHexStrGo (n + 1) n

/-- JS `s.padStart(2, '0')`. -/
def padStart2 (s : Str) : Str :=
  if s.length < 2 then List.replicate (2 - s.length) '0' ++ s else s

/-- `bytesToHex` (src/utils/nostr.ts): each byte rendered as two lowercase hex
digits, concatenated. -/
def bytesToHex (bytes : List Nat) : Str :=
  (bytes.map (fun b => padStart2 (natToHexStr b))).flatten

/-- Digit loop of `toString(10)`, fuelled like `natToHexStrGo`. -/
def natToDecStrGo : Nat → Nat → Str
  | 0, _ => []
  | fuel + 1, n =>
    if n < 10 then [Char.ofNat (48 + n)]
    else natToDecStrGo fuel (n / 10) ++ [Char.ofNat (48 + n % 10)]

/-- JS `n.toString(10)` digits of a `Nat`. -/
def natToDecStr (n : Nat) : Str := natToDecStrGo (n + 1) n

/-- JS rendering of an integer-valued number. -/
def intToDecStr (i : Int) : Str :=
  if i < 0 then '-' :: natToDecStr (-i).toNat else natToDecStr i.toNat

/-! ## UTF-8 encoding and decoding (`TextEncoder` / `TextDecoder`) -/

/-- UTF-8 bytes of one unicode scalar value (`TextEncoder`). -/
def utf8EncodeChar (c : Char) : List Nat :=
  let n := c.toNat
  if n < 0x80 then [n]
  else if n < 0x800 then [0xc0 ||| (n >>> 6), 0x80 ||| (n &&& 63)]
  else if n < 0x10000 then
    [0xe0 ||| (n >>> 12), 0x80 ||| ((n >>> 6) &&& 63), 0x80 ||| (n &&& 63)]
  else
    [0xf0 ||| (n >>> 18), 0x80 ||| ((n >>> 12) &&& 63),
     0x80 ||| ((n >>> 6) &&& 63), 0x80 ||| (n &&& 63)]

/-- `new TextEncoder().encode(s)`. -/
def utf8Encode (s : Str) : List Nat :=
  (s.map utf8EncodeChar).flatten

/-- Is `b` a UTF-8 continuation byte? -/
def isCont (b : Nat) : Bool := 0x80 ≤ b && b ≤ 0xbf

/-- `new TextDecoder().decode(bytes)`: WHATWG UTF-8 decoding, with U+FFFD for
every malformed sequence (non-fatal mode). -/
def utf8Decode : List Nat → Str
  | [] => []
  | b :: rest =>
    if b < 0x80 then Char.ofNat b :: utf8Decode rest
    else if 0xc2 ≤ b && b ≤ 0xdf then
      match rest with
      | b2 :: r2 =>
        if isCont b2 then
          Char.ofNat (((b - 0xc0) <<< 6) + (b2 - 0x80)) :: utf8Decode r2
        else '�' :: utf8Decode (b2 :: r2)
      | [] => ['�']
    else if 0xe0 ≤ b && b ≤ 0xef then
      match rest with
      | b2 :: b3 :: r3 =>
        if (isCont b2 && b3 ≤ 0xbf && 0x80 ≤ b3 &&
            (b != 0xe0 || 0xa0 ≤ b2) && (b != 0xed || b2 ≤ 0x9f)) then
          Char.ofNat (((b - 0xe0) <<< 12) + ((b2 - 0x80) <<< 6) + (b3 - 0x80)) ::
            utf8Decode r3
        else '�' :: utf8Decode (b2 :: b3 :: r3)
      | [b2] =>
        if isCont b2 && (b != 0xe0 || 0xa0 ≤ b2) && (b != 0xed || b2 ≤ 0x9f) then
          ['�']
        else '�' :: utf8Decode [b2]
      | [] => ['�']
    else if 0xf0 ≤ b && b ≤ 0xf4 then
      match rest with
      | b2 :: b3 :: b4 :: r4 =>
        if (isCont b2 && isCont b3 && isCont b4 &&
            (b != 0xf0 || 0x90 ≤ b2) && (b != 0xf4 || b2 ≤ 0x8f)) then
          Char.ofNat (((b - 0xf0) <<< 18) + ((b2 - 0x80) <<< 12) +
              ((b3 - 0x80) <<< 6) + (b4 - 0x80)) :: utf8Decode r4
        else '�' :: utf8Decode (b2 :: b3 :: b4 :: r4)
      | [b2, b3] =>
        if isCont b2 && isCont b3 && (b != 0xf0 || 0x90 ≤ b2) && (b != 0xf4 || b2 ≤ 0x8f)
        then ['�'] else '�' :: utf8Decode [b2, b3]
      | [b2] =>
        if isCont b2 && (b != 0xf0 || 0x90 ≤ b2) && (b != 0xf4 || b2 ≤ 0x8f)
        then ['�'] else '�' :: utf8Decode [b2]
      | [] => ['�']
    else '�' :: utf8Decode rest

/-! ## SHA-256 (`crypto.subtle.digest('SHA-256', _)`), FIPS 180-4 -/

/-- Addition modulo 2^32. -/
def add32 (a b : Nat) : Nat := (a + b) % 4294967296

/-- Right rotation of a 32-bit word. -/
def rotr32 (x n : Nat) : Nat :=
  ((x >>> n) ||| (x <<< (32 - n))) % 4294967296

/-- The 64 SHA-256 round constants (FIPS 180-4 §4.2.2, written in decimal). -/
def sha256K : List Nat :=
  [1116352408, 1899447441, 3049323471, 3921009573, 961987163, 1508970993,
   2453635748, 2870763221, 3624381080, 310598401, 607225278, 1426881987,
   1925078388, 2162078206, 2614888103, 3248222580, 3835390401, 4022224774,
   264347078, 604807628, 770255983, 1249150122, 1555081692, 1996064986,
   2554220882, 2821834349, 2952996808, 3210313671, 3336571891, 3584528711,
   113926993, 338241895, 666307205, 773529912, 1294757372, 1396182291,
   1695183700, 1986661051, 2177026350, 2456956037, 2730485921, 2820302411,
   3259730800, 3345764771, 3516065817, 3600352804, 4094571909, 275423344,
   430227734, 506948616, 659060556, 883997877, 958139571, 1322822218,
   1537002063, 1747873779, 1955562222, 2024104815, 2227730452, 2361852424,
   2428436474, 2756734187, 3204031479, 3329325298]

/-- The SHA-256 initial hash value (FIPS 180-4 §5.3.3, written in decimal). -/
def sha256H0 : List Nat :=
  [1779033703, 3144134277, 1013904242, 2773480762,
   1359893119, 2600822924, 528734635, 1541459225]

/-- 8-byte big-endian rendering of a length in bits. -/
def be64 (n : Nat) : List Nat :=
  [(n >>> 56) &&& 255, (n >>> 48) &&& 255, (n >>> 40) &&& 255,
   (n >>> 32) &&& 255, (n >>> 24) &&& 255, (n >>> 16) &&& 255,
   (n >>> 8) &&& 255, n &&& 255]

/-- 4-byte big-endian rendering of a 32-bit word. -/
def be32 (n : Nat) : List Nat :=
  [(n >>> 24) &&& 255, (n >>> 16) &&& 255, (n >>> 8) &&& 255, n &&& 255]

/-- SHA-256 padding: the message, a 0x80 byte, zeros to 56 mod 64, then the
bit length as 8 big-endian bytes. -/
def sha256Pad (msg : List Nat) : List Nat :=
  msg ++ [0x80] ++
  List.replicate ((64 + 56 - (msg.length + 1) % 64) % 64) 0 ++
  be64 (8 * msg.length)

/-- Block loop for `blocksOf`; the fuel (the starting length) cannot run out
because every step drops at least one element. -/
def blocksOfGo (n : Nat) : Nat → List α → List (List α)
  | 0, _ => []
  | fuel + 1, l =>
    if l.isEmpty || n == 0 then []
    else l.take n :: blocksOfGo n fuel (l.drop n)

/-- Split a list into blocks of `n` elements (`n > 0`). -/
def blocksOf (n : Nat) (l : List α) : List (List α) := blocksOfGo n l.length l

/-- Pack groups of 4 bytes into big-endian 32-bit words. -/
def bytesToWords32 (bytes : List Nat) : List Nat :=
  (blocksOf 4 bytes).map fun b =>
    (b.getD 0 0 <<< 24) + (b.getD 1 0 <<< 16) + (b.getD 2 0 <<< 8) + b.getD 3 0

/-- Extend the 16 message words of one block to the 64-entry schedule. -/
def sha256Schedule (w16 : List Nat) : List Nat :=
  (List.range 48).foldl
    (fun w _ =>
      let s0 := (rotr32 (w.getD (w.length - 15) 0) 7) ^^^
                (rotr32 (w.getD (w.length - 15) 0) 18) ^^^
                ((w.getD (w.length - 15) 0) >>> 3)
      let s1 := (rotr32 (w.getD (w.length - 2) 0) 17) ^^^
                (rotr32 (w.getD (w.length - 2) 0) 19) ^^^
                ((w.getD (w.length - 2) 0) >>> 10)
      w ++ [add32 (add32 (w.getD (w.length - 16) 0) s0)
                  (add32 (w.getD (w.length - 7) 0) s1)])
    w16

/-- One SHA-256 compression round. -/
def sha256Round (state : List Nat) (kw : Nat × Nat) : List Nat :=
  match state with
  | [a, b, c, d, e, f, g, h] =>
    let s1 := (rotr32 e 6) ^^^ (rotr32 e 11) ^^^ (rotr32 e 25)
    let ch := (e &&& f) ^^^ ((e ^^^ 4294967295) &&& g)
    let temp1 := add32 (add32 (add32 h s1) (add32 ch kw.1)) kw.2
    let s0 := (rotr32 a 2) ^^^ (rotr32 a 13) ^^^ (rotr32 a 22)
    let maj := (a &&& b) ^^^ (a &&& c) ^^^ (b &&& c)
    let temp2 := add32 s0 maj
    [add32 temp1 temp2, a, b, c, add32 d temp1, e, f, g]
  | s => s

/-- Process one 64-byte block into the running hash value. -/
def sha256Block (hTag : List Nat) (block : List Nat) : List Nat :=
  let w := sha256Schedule (bytesToWords32 block)
  let final := (sha256K.zip w).foldl sha256Round hTag
  (hTag.zip final).map fun p => add32 p.1 p.2

/-- SHA-256 of a byte sequence, as 32 bytes. -/
def sha256 (msg : List Nat) : List Nat :=
  (((blocksOf 64 (sha256Pad msg)).foldl sha256Block sha256H0).map be32).flatten

/-! ## JSON values and `JSON.parse` -/

/-- A JS value produced by `JSON.parse`. Numbers keep their exact decimal
reading as `(-1)^neg * mantissa * 10^exp10`; only the fact that a value is a
number matters to the classifier. -/
inductive Js where
  | nullV : Js
  | boolV (b : Bool) : Js
  | numV (neg : Bool) (mantissa : Nat) (exp10 : Int) : Js
  | strV (s : Str) : Js
  | arrV (elems : List Js) : Js
  | objV (fields : List (Str × Js)) : Js

/-- JSON insignificant whitespace. -/
def isJsonWs (c : Char) : Bool :=
  c == ' ' || c == '\t' || c == '\n' || c == '\r'

/-- Skip JSON whitespace. -/
def jsonSkipWs (s : Str) : Str := s.dropWhile isJsonWs

/-- Digit value of `c`, if `c` is `'0'`..`'9'`. -/
def digitVal (c : Char) : Option Nat :=
  if '0' ≤ c && c ≤ '9' then some (c.toNat - 48) else none

/-- Consume a maximal digit run: value so far, count so far, then the rest. -/
def takeDigits (val cnt : Nat) : Str → Nat × Nat × Str
  | [] => (val, cnt, [])
  | c :: r =>
    match digitVal c with
    | some d => takeDigits (10 * val + d) (cnt + 1) r
    | none => (val, cnt, c :: r)

/-- Four hex digits of a `\uXXXX` escape. -/
def parseHex4 : Str → Option (Nat × Str)
  | c1 :: c2 :: c3 :: c4 :: r =>
    match hexVal c1, hexVal c2, hexVal c3, hexVal c4 with
    | some h1, some h2, some h3, some h4 =>
      some (((h1 * 16 + h2) * 16 + h3) * 16 + h4, r)
    | _, _, _, _ => none
  | _ => none

/-- The body of a JSON string after the opening quote, to `(contents, rest)`.
`fuel` bounds the recursion; callers pass at least `s.length + 1`, which a
step consuming one or more characters can never exhaust. A `\uXXXX` escape
denoting an unpaired surrogate (a JS string can hold one, a scalar-value
`Char` cannot) is modelled as U+FFFD; no classifier claim inspects one. -/
def parseStrBody (fuel : Nat) (acc : Str) (s : Str) : Option (Str × Str) :=
  match fuel, s with
  | 0, _ => none
  | _, [] => none
  | fuel + 1, c :: rest =>
    if c == '"' then some (acc.reverse, rest)
    else if c == '\\' then
      match rest with
      | [] => none
      | e :: r2 =>
        if e == '"' then parseStrBody fuel ('"' :: acc) r2
        else if e == '\\' then parseStrBody fuel ('\\' :: acc) r2
        else if e == '/' then parseStrBody fuel ('/' :: acc) r2
        else if e == 'b' then parseStrBody fuel ('\x08' :: acc) r2
        else if e == 'f' then parseStrBody fuel ('\x0c' :: acc) r2
        else if e == 'n' then parseStrBody fuel ('\n' :: acc) r2
        else if e == 'r' then parseStrBody fuel ('\r' :: acc) r2
        else if e == 't' then parseStrBody fuel ('\t' :: acc) r2
        else if e == 'u' then
          match parseHex4 r2 with
          | none => none
          | some (n, r3) =>
            if 0xd800 ≤ n && n ≤ 0xdbff then
              match r3 with
              | '\\' :: 'u' :: r4 =>
                match parseHex4 r4 with
                | some (m, r5) =>
                  if 0xdc00 ≤ m && m ≤ 0xdfff then
                    parseStrBody fuel
                      (Char.ofNat (0x10000 + ((n - 0xd800) <<< 10) + (m - 0xdc00)) :: acc) r5
                  else parseStrBody fuel ('�' :: acc) r3
                | none => parseStrBody fuel ('�' :: acc) r3
              | _ => parseStrBody fuel ('�' :: acc) r3
            else if 0xdc00 ≤ n && n ≤ 0xdfff then parseStrBody fuel ('�' :: acc) r3
            else parseStrBody fuel (Char.ofNat n :: acc) r3
        else none
    else if c.toNat < 0x20 then none
    else parseStrBody fuel (c :: acc) rest

/-- The exponent part of a JSON number, then the finished number token. -/
def parseExpPart (neg : Bool) (mant : Nat) (e0 : Int) (s : Str) : Option (Js × Str) :=
  match s with
  | c :: r =>
    if c == 'e' || c == 'E' then
      let (esign, r2) : Int × Str :=
        match r with
        | '+' :: x => (1, x)
        | '-' :: x => (-1, x)
        | _ => (1, r)
      let (v, k, rest) := takeDigits 0 0 r2
      if k == 0 then none else some (.numV neg mant (e0 + esign * v), rest)
    else some (.numV neg mant e0, c :: r)
  | [] => some (.numV neg mant e0, [])

/-- The optional fraction then exponent of a JSON number. -/
def parseFracPart (neg : Bool) (mant : Nat) (s : Str) : Option (Js × Str) :=
  match s with
  | '.' :: r =>
    let (v, k, rest) := takeDigits 0 0 r
    if k == 0 then none else parseExpPart neg (mant * 10 ^ k + v) (-(k : Int)) rest
  | _ => parseExpPart neg mant 0 s

/-- A JSON number token (`-? int frac? exp?`). -/
def parseNumber (s : Str) : Option (Js × Str) :=
  let (neg, s1) : Bool × Str :=
    match s with
    | '-' :: r => (true, r)
    | _ => (false, s)
  match s1 with
  | '0' :: r => parseFracPart neg 0 r
  | c :: r =>
    match digitVal c with
    | some d =>
      let (v, _, rest) := takeDigits d 1 r
      parseFracPart neg v rest
    | none => none
  | [] => none

/-- `strStarts p s`: does `s` start with `p` (JS `startsWith` / an anchored
literal match)? -/
def strStarts : Str → Str → Bool
  | [], _ => true
  | _ :: _, [] => false
  | a :: ps, b :: ss => a == b && strStarts ps ss

mutual

/-- A JSON value, to `(value, rest)`. `fuel` bounds nesting; the top entry
point passes more than twice the input length, which a grammar in which every
level consumes characters never exhausts. -/
def parseJsonValue : Nat → Str → Option (Js × Str)
  | 0, _ => none
  | fuel + 1, s =>
    match jsonSkipWs s with
    | [] => none
    | c :: r =>
      if c == '{' then
        match jsonSkipWs r with
        | '}' :: r2 => some (.objV [], r2)
        | r2 => parseObjMembers fuel r2 []
      else if c == '[' then
        match jsonSkipWs r with
        | ']' :: r2 => some (.arrV [], r2)
        | r2 => parseArrElems fuel r2 []
      else if c == '"' then
        match parseStrBody (r.length + 1) [] r with
        | some (cs, rest) => some (.strV cs, rest)
        | none => none
      else if c == 't' then
        if strStarts "rue".toList r then some (.boolV true, r.drop 3) else none
      else if c == 'f' then
        if strStarts "alse".toList r then some (.boolV false, r.drop 4) else none
      else if c == 'n' then
        if strStarts "ull".toList r then some (.nullV, r.drop 3) else none
      else parseNumber (c :: r)

/-- The elements of a non-empty JSON array, after `[`. -/
def parseArrElems : Nat → Str → List Js → Option (Js × Str)
  | 0, _, _ => none
  | fuel + 1, s, acc =>
    match parseJsonValue fuel s with
    | none => none
    | some (v, r) =>
      match jsonSkipWs r with
      | ',' :: r2 => parseArrElems fuel r2 (v :: acc)
      | ']' :: r2 => some (.arrV (v :: acc).reverse, r2)
      | _ => none

/-- The members of a non-empty JSON object, after `{`. -/
def parseObjMembers : Nat → Str → List (Str × Js) → Option (Js × Str)
  | 0, _, _ => none
  | fuel + 1, s, acc =>
    match jsonSkipWs s with
    | '"' :: r =>
      match parseStrBody (r.length + 1) [] r with
      | none => none
      | some (key, r2) =>
        match jsonSkipWs r2 with
        | ':' :: r3 =>
          match parseJsonValue fuel r3 with
          | none => none
          | some (v, r4) =>
            match jsonSkipWs r4 with
            | ',' :: r5 => parseObjMembers fuel r5 ((key, v) :: acc)
            | '}' :: r5 => some (.objV ((key, v) :: acc).reverse, r5)
            | _ => none
        | _ => none
    | _ => none

end

/-- `JSON.parse(s)`: one JSON text, with nothing but whitespace after it. -/
def jsonParse (s : Str) : Option Js :=
  match parseJsonValue (2 * s.length + 4) s with
  | some (v, rest) => if jsonSkipWs rest == [] then some v else none
  | none => none

/-! ## Bech32 decoding (`bech32.decode` / `bech32.fromWords` of `@scure/base`) -/

/-- The bech32 data alphabet. -/
def bech32Charset : Str := "qpzry9x8gf2tvdw0s3jn54khce6mua7l".toList

/-- Index of a character in the bech32 alphabet (`CHARSET.indexOf`). -/
def charsetIdx (c : Char) : Option Nat := bech32Charset.indexOf? c

/-- One step of the BCH checksum polymod. -/
def polymodStep (pre : Nat) : Nat :=
  let b := pre >>> 25
  let chk := (pre &&& 0x1ffffff) <<< 5
  let chk := if b &&& 1 == 1 then chk ^^^ 0x3b6a57b2 else chk
  let chk := if (b >>> 1) &&& 1 == 1 then chk ^^^ 0x26508e6d else chk
  let chk := if (b >>> 2) &&& 1 == 1 then chk ^^^ 0x1ea119fa else chk
  let chk := if (b >>> 3) &&& 1 == 1 then chk ^^^ 0x3d4233dd else chk
  let chk := if (b >>> 4) &&& 1 == 1 then chk ^^^ 0x2a1462b3 else chk
  chk

/-- `bechChecksum` of `@scure/base` (encoding constant 1): the six checksum
words for a prefix and data words; `none` when a prefix character is outside
the printable range 33..126 (the library throws there). -/
def bechChecksumWords (hrp : Str) (words : List Nat) : Option (List Nat) :=
  if hrp.all (fun c => 33 ≤ c.toNat && c.toNat ≤ 126) then
    let chk := hrp.foldl (fun chk c => polymodStep chk ^^^ (c.toNat >>> 5)) 1
    let chk := polymodStep chk
    let chk := hrp.foldl (fun chk c => polymodStep chk ^^^ (c.toNat &&& 31)) chk
    let chk := words.foldl (fun chk v => polymodStep chk ^^^ v) chk
    let chk := (List.range 6).foldl (fun chk _ => polymodStep chk) chk
    let chk := chk ^^^ 1
    some ((List.range 6).map fun i => (chk >>> ((5 - i) * 5)) &&& 31)
  else none

/-- Index of the last `'1'` in a string (`lastIndexOf('1')`). -/
def lastIdxOfOne (s : Str) : Option Nat :=
  match s.reverse.indexOf? '1' with
  | some j => some (s.length - 1 - j)
  | none => none

/-- All characters mapped through the bech32 alphabet, or `none` on an
unknown letter (the library throws there). -/
def charsetWords : Str → Option (List Nat)
  | [] => some []
  | c :: r =>
    match charsetIdx c, charsetWords r with
    | some w, some ws => some (w :: ws)
    | _, _ => none

/-- `bech32.decode(str, limit)`: length window, mixed-case rejection,
separator position, data length, alphabet mapping and checksum; yields the
prefix and the data words without the six checksum words. The library builds
the expected checksum text and compares it with the tail of the input; on
alphabet-valid input that is the same as comparing the last six words. -/
def bech32Decode (s : Str) (limit : Nat) : Option (Str × List Nat) :=
  if s.length < 8 || s.length > limit then none
  else
    let lowered := s.map asciiLower
    if !(s == lowered || s == s.map asciiUpper) then none
    else
      match lastIdxOfOne lowered with
      | none => none
      | some 0 => none
      | some sep =>
        let hrp := lowered.take sep
        let dataPart := lowered.drop (sep + 1)
        if dataPart.length < 6 then none
        else
          match charsetWords dataPart with
          | none => none
          | some words =>
            match bechChecksumWords hrp (words.take (words.length - 6)) with
            | none => none
            | some sum =>
              if words.drop (words.length - 6) == sum
              then some (hrp, words.take (words.length - 6))
              else none

/-- `bech32.fromWords` (`convertRadix2` from 5 to 8 bits, no padding): repack
5-bit words into bytes; fails on 5 or more leftover bits or nonzero leftover
bits. The JS accumulator keeps junk above its low `pos` bits (32-bit shifts
wrap); the mask keeps only bits that can reach the output. -/
def fromWordsGo : List Nat → Nat → Nat → List Nat → Option (List Nat)
  | [], carry, pos, acc =>
    if pos ≥ 5 then none
    else if (carry <<< (8 - pos)) &&& 255 != 0 then none
    else some acc.reverse
  | n :: rest, carry, pos, acc =>
    let carry := ((carry <<< 5) ||| n) &&& 0xffff
    let pos := pos + 5
    if pos ≥ 8 then fromWordsGo rest carry (pos - 8) (((carry >>> (pos - 8)) &&& 255) :: acc)
    else fromWordsGo rest carry pos acc

/-- `bech32.fromWords(words)`. -/
def bech32FromWords (words : List Nat) : Option (List Nat) :=
  fromWordsGo words 0 0 []

/-! ## The decoded-identifier data model (`DecodedIdentifier` of types/nostr.ts) -/

/-- The `type` tag of a decoded identifier. -/
inductive IdKind where
  | npub | nsec | note | nevent | nprofile | naddr
deriving DecidableEq

/-- One entry of the `tlv` diagnostic sequence. `length` is the raw length
byte; it is `none` in the one degenerate case where the length byte itself
lies past the end of the payload (JS reads `undefined` there). `value` is the
hex rendering of the value bytes. -/
structure TLVEntry where
  type : Nat
  typeName : Str
  length : Option Nat
  value : Str
deriving DecidableEq

/-- The optional-field bag `data` of a decoded identifier. -/
structure IdData where
  id : Option Str := none
  pubkey : Option Str := none
  relays : Option (List Str) := none
  author : Option Str := none
  kind : Option Int := none
  dTag : Option Str := none
deriving DecidableEq

/-- A decoded NIP-19 identifier. -/
structure DecodedIdentifier where
  type : IdKind
  data : IdData
  tlv : Option (List TLVEntry) := none
deriving DecidableEq

/-- `getTLVTypeName` (src/utils/nostr.ts). -/
def getTLVTypeName (t : Nat) : Str :=
  if t == 0 then "special".toList
  else if t == 1 then "relay".toList
  else if t == 2 then "author".toList
  else if t == 3 then "kind".toList
  else if t == 4 then "d-tag".toList
  else "unknown(".toList ++ natToDecStr t ++ ")".toList

/-- `ToInt32` of a nonnegative 32-bit value. -/
def toInt32 (n : Nat) : Int :=
  if n < 2147483648 then (n : Int) else (n : Int) - 4294967296

/-- `ToUint32` of an integer. -/
def toUint32 (x : Int) : Nat := (x % 4294967296).toNat

/-- JS `x << 8`: a 32-bit signed shift (`ToInt32(x)`, shift, reinterpret). -/
def jsShl8 (x : Int) : Int := toInt32 ((toUint32 x * 256) % 4294967296)

/-- `bytesToNumber` (src/utils/nostr.ts): `result = (result << 8) + bytes[i]`
over the value bytes — note the 32-bit signed `<<`. -/
def bytesToNumber (bytes : List Nat) : Int :=
  bytes.foldl (fun (result : Int) (b : Nat) => jsShl8 result + (b : Int)) 0

/-- The `switch (tlvType)` body of `decodeTLV`: how one recognised record
updates the identifier's fields. -/
def applyTLVField (t : IdKind) (tlvType : Nat) (value : List Nat) (d : IdData) : IdData :=
  if tlvType == 0 then
    if t == .nevent then { d with id := some (bytesToHex value) }
    else if t == .nprofile || t == .naddr then { d with pubkey := some (bytesToHex value) }
    else d
  else if tlvType == 1 then
    { d with relays := some (d.relays.getD [] ++ [utf8Decode value]) }
  else if tlvType == 2 then { d with author := some (bytesToHex value) }
  else if tlvType == 3 then { d with kind := some (bytesToNumber value) }
  else if tlvType == 4 then { d with dTag := some (utf8Decode value) }
  else d

/-- The cursor loop of `decodeTLV`, on the not-yet-consumed suffix of the
payload (`rest = data` from the current offset on). While the suffix is
nonempty: read the type byte, read the length byte (`undefined` when the
suffix has a single byte), slice the value (`slice` clamps to the available
bytes, so it is `take`), push the diagnostic entry, apply the field switch
and advance by `2 + length` — a `drop` of the value bytes. An `undefined`
length ends the loop after its record (the offset becomes `NaN`). The fuel
starts at the payload length; a step consumes at least two bytes, so the
fuel-0-on-nonempty branch is unreachable. -/
def decodeTLVList (t : IdKind) : Nat → List Nat → IdData → List TLVEntry →
    IdData × List TLVEntry
  | _, [], d, tlv => (d, tlv)
  | 0, _, d, tlv => (d, tlv)
  | _ + 1, [tlvType], d, tlv =>
    (applyTLVField t tlvType [] d,
     tlv ++ [⟨tlvType, getTLVTypeName tlvType, none, bytesToHex []⟩])
  | fuel + 1, tlvType :: len :: r, d, tlv =>
    let value := r.take len
    let entry : TLVEntry := ⟨tlvType, getTLVTypeName tlvType, some len, bytesToHex value⟩
    decodeTLVList t fuel (r.drop len) (applyTLVField t tlvType value d) (tlv ++ [entry])

/-- `decodeTLV` (src/utils/nostr.ts). -/
def decodeTLV (t : IdKind) (data : List Nat) : DecodedIdentifier :=
  let (d, tlv) := decodeTLVList t data.length data {} []
  ⟨t, d, some tlv⟩

/-- `decodeBech32Identifier` (src/utils/nostr.ts): bech32-decode with limit
1023, repack words to bytes, then dispatch on the prefix; any throw along the
way is caught and becomes `null`. -/
def decodeBech32Identifier (identifier : Str) : Option DecodedIdentifier :=
  match bech32Decode identifier 1023 with
  | none => none
  | some (hrp, words) =>
    match bech32FromWords words with
    | none => none
    | some data =>
      if hrp == "npub".toList then
        some ⟨.npub, { pubkey := some (bytesToHex data) }, none⟩
      else if hrp == "nsec".toList then
        some ⟨.nsec, { pubkey := some (bytesToHex data) }, none⟩
      else if hrp == "note".toList then
        some ⟨.note, { id := some (bytesToHex data) }, none⟩
      else if hrp == "nevent".toList then some (decodeTLV .nevent data)
      else if hrp == "nprofile".toList then some (decodeTLV .nprofile data)
      else if hrp == "naddr".toList then some (decodeTLV .naddr data)
      else none

/-! ## The input classifier (`parseInput` of src/utils/nostr.ts) -/

/-- The classifier's result: a JSON event (the parsed object, cast as an
event by the source) or a decoded identifier. -/
inductive ParsedResult where
  | event (data : Js)
  | identifier (data : DecodedIdentifier)

/-- Last binding of a key in a JS object literal (later duplicate keys win,
as in `JSON.parse`). -/
def jsGet (fields : List (Str × Js)) (key : Str) : Option Js :=
  match fields with
  | [] => none
  | (k, v) :: rest =>
    match jsGet rest key with
    | some r => some r
    | none => if k == key then some v else none

/-- `typeof _ === 'string'` on a property read. -/
def isStrProp : Option Js → Bool
  | some (.strV _) => true
  | _ => false

/-- `typeof _ === 'number'` on a property read. -/
def isNumProp : Option Js → Bool
  | some (.numV _ _ _) => true
  | _ => false

/-- `Array.isArray(_)` on a property read. -/
def isArrProp : Option Js → Bool
  | some (.arrV _) => true
  | _ => false

/-- `isValidEventStructure` (src/utils/nostr.ts): the parsed value is a
(truthy) object whose `id`, `pubkey`, `content`, `sig` are strings,
`created_at` and `kind` are numbers, and `tags` is an array. Only `objV`
can satisfy the property reads; every other JSON value fails them. -/
def isValidEventStructure (v : Js) : Bool :=
  match v with
  | .objV fields =>
    isStrProp (jsGet fields "id".toList) &&
    isStrProp (jsGet fields "pubkey".toList) &&
    isNumProp (jsGet fields "created_at".toList) &&
    isNumProp (jsGet fields "kind".toList) &&
    isArrProp (jsGet fields "tags".toList) &&
    isStrProp (jsGet fields "content".toList) &&
    isStrProp (jsGet fields "sig".toList)
  | _ => false

/-- Is `c` in the character class `[02-9ac-hj-np-z]` of the bech32 pattern? -/
def isBech32DataChar (c : Char) : Bool :=
  c == '0' || ('2' ≤ c && c ≤ '9') || c == 'a' ||
  ('c' ≤ c && c ≤ 'h') || ('j' ≤ c && c ≤ 'n') || ('p' ≤ c && c ≤ 'z')

/-- The six human-readable prefixes of the classifier's bech32 pattern. -/
def bech32Hrps : List Str :=
  [['n', 'p', 'u', 'b'], ['n', 's', 'e', 'c'], ['n', 'o', 't', 'e'],
   ['n', 'e', 'v', 'e', 'n', 't'], ['n', 'p', 'r', 'o', 'f', 'i', 'l', 'e'],
   ['n', 'a', 'd', 'd', 'r']]

/-- The test `/^(npub|nsec|note|nevent|nprofile|naddr)1[02-9ac-hj-np-z]+$/`.
No listed prefix is a prefix of another, so the decomposition is unique. -/
def matchesBech32Pattern (s : Str) : Bool :=
  bech32Hrps.any fun p =>
    strStarts (p ++ ['1']) s &&
    !(s.drop (p.length + 1)).isEmpty &&
    (s.drop (p.length + 1)).all isBech32DataChar

/-- Is `c` in `[0-9a-f]` up to case (`/^[0-9a-f]{64}$/i`)? -/
def isHexDigitChar (c : Char) : Bool :=
  ('0' ≤ c && c ≤ '9') || ('a' ≤ c && c ≤ 'f') || ('A' ≤ c && c ≤ 'F')

/-- The test `/^[0-9a-f]{64}$/i`. -/
def matchesHex64 (s : Str) : Bool :=
  s.length == 64 && s.all isHexDigitChar

/-- The literal `"nostr:"`. -/
def nostrScheme : Str := ['n', 'o', 's', 't', 'r', ':']

/-- Step 1 of `parseInput`: `JSON.parse` in a try block, then the structural
check; a parse failure or a failed check falls through. -/
def jsonEventStep (trimmed : Str) : Option ParsedResult :=
  match jsonParse trimmed with
  | some parsed =>
    if isValidEventStructure parsed then some (.event parsed) else none
  | none => none

/-- Step 2 of `parseInput`: the bech32 pattern, then the codec; a decode
failure falls through. -/
def bech32IdStep (trimmed : Str) : Option ParsedResult :=
  if matchesBech32Pattern trimmed then
    match decodeBech32Identifier trimmed with
    | some decoded => some (.identifier decoded)
    | none => none
  else none

/-- Step 3 of `parseInput`: the `nostr:` scheme, then the codec on the
remainder of the *trimmed* input. -/
def nostrUriStep (trimmed : Str) : Option ParsedResult :=
  if strStarts nostrScheme trimmed then
    match decodeBech32Identifier (trimmed.drop 6) with
    | some decoded => some (.identifier decoded)
    | none => none
  else none

/-- Step 4 of `parseInput`: a raw 64-hex-character id becomes a synthetic
`note` identifier with a lower-cased `id` and no TLV records. -/
def hex64Step (trimmed : Str) : Option ParsedResult :=
  if matchesHex64 trimmed then
    some (.identifier ⟨.note, { id := some (trimmed.map asciiLower) }, none⟩)
  else none

/-- `parseInput` (src/utils/nostr.ts): trim once, then the four classification
steps in order; the first step that produces a result wins and a failing step
falls through to the next. -/
def parseInput (input : Str) : Option ParsedResult :=
  let trimmed := jsTrim input
  match jsonEventStep trimmed with
  | some r => some r
  | none =>
    match bech32IdStep trimmed with
    | some r => some r
    | none =>
      match nostrUriStep trimmed with
      | some r => some r
      | none => hex64Step trimmed

/-! ## The event-integrity validator (`validateEvent` of src/utils/nostr.ts) -/

/-- A raw Nostr event as typed by the source (`NostrEvent` of
types/nostr.ts); `created_at` and `kind` are integer-valued JS numbers. -/
structure NostrEvent where
  id : Str
  pubkey : Str
  created_at : Int
  kind : Int
  tags : List (List Str)
  content : Str
  sig : Str

/-- One character of a JSON string as `JSON.stringify` quotes it. -/
def jsonEscapeChar (c : Char) : Str :=
  if c == '"' then ['\\', '"']
  else if c == '\\' then ['\\', '\\']
  else if c == '\x08' then ['\\', 'b']
  else if c == '\t' then ['\\', 't']
  else if c == '\n' then ['\\', 'n']
  else if c == '\x0c' then ['\\', 'f']
  else if c == '\r' then ['\\', 'r']
  else if c.toNat < 0x20 then
    ['\\', 'u', '0', '0', hexDigitChar (c.toNat / 16), hexDigitChar (c.toNat % 16)]
  else [c]

/-- `JSON.stringify` of a string value. -/
def jsonQuote (s : Str) : Str :=
  '"' :: (s.map jsonEscapeChar).flatten ++ ['"']

/-- Comma-joined pieces. -/
def commaJoin (pieces : List Str) : Str :=
  match pieces with
  | [] => []
  | p :: rest => p ++ (rest.map (',' :: ·)).flatten

/-- `JSON.stringify` of the tags (an array of arrays of strings), compact. -/
def stringifyTags (tags : List (List Str)) : Str :=
  '[' :: commaJoin (tags.map fun tag => '[' :: commaJoin (tag.map jsonQuote) ++ [']']) ++ [']']

/-- `JSON.stringify([0, event.pubkey, event.created_at, event.kind,
event.tags, event.content])`: the canonical id serialization — compact,
comma-separated, no added whitespace, leading literal 0. -/
def serializeEventForId (event : NostrEvent) : Str :=
  '[' :: '0' :: ',' :: jsonQuote event.pubkey ++ [','] ++
  intToDecStr event.created_at ++ [','] ++ intToDecStr event.kind ++ [','] ++
  stringifyTags event.tags ++ [','] ++ jsonQuote event.content ++ [']']

/-- `computedId` of `validateEvent`: lowercase hex of the SHA-256 digest of
the UTF-8 bytes of the canonical serialization. -/
def computedEventId (event : NostrEvent) : Str :=
  bytesToHex (sha256 (utf8Encode (serializeEventForId event)))

/-- `parseInt(hex.substr(2*i, 2), 16)` coerced through a `Uint8Array` store:
an invalid first digit reads as `NaN` and stores 0; an invalid second digit
stops the parse after one digit. -/
def parseIntHex2 (c1 c2 : Char) : Nat :=
  match hexVal c1 with
  | none => 0
  | some h1 =>
    match hexVal c2 with
    | none => h1
    | some h2 => 16 * h1 + h2

/-- The byte loop of `hexToBytes`. -/
def hexPairsToBytes : Str → List Nat
  | c1 :: c2 :: rest => parseIntHex2 c1 c2 :: hexPairsToBytes rest
  | _ => []

/-- `hexToBytes` (src/utils/nostr.ts): `new Uint8Array(hex.length / 2)`
throws a RangeError on a fractional length (odd `hex.length`), modelled as
`none`; otherwise each character pair becomes one byte. -/
def hexToBytes (hex : Str) : Option (List Nat) :=
  if hex.length % 2 == 0 then some (hexPairsToBytes hex) else none

/-- The error string pushed when the event id mismatches. -/
def idMismatchMsg : Str := "Event ID does not match computed hash".toList

/-- The error string pushed when `schnorr.verify` returns false. -/
def invalidSigMsg : Str := "Invalid signature".toList

/-- `'Signature validation failed: ' + (sigError as Error).message`. -/
def sigFailMsg (m : Str) : Str :=
  "Signature validation failed: ".toList ++ m

/-- The host's message for the RangeError thrown by
`new Uint8Array(hex.length / 2)` on a fractional length; its exact text is
engine-specific and no claim depends on it. -/
def rangeErrMsg : Str := "Invalid typed array length".toList

/-- `ValidationResult` (types/nostr.ts). -/
structure ValidationResult where
  isValid : Bool
  idMatch : Bool
  sigValid : Bool
  errors : List Str

/-- The type of the external `schnorr.verify(signature, messageHash, pubkey)`
primitive: a boolean verdict, or a thrown error's message. -/
abbrev SchnorrVerify := List Nat → List Nat → List Nat → Except Str Bool

/-- `validateEvent` (src/utils/nostr.ts), for any verifier primitive. The
serialization, hashing and id comparison cannot throw, so the outer catch is
dead; the inner try around the signature work catches both the hex-length
RangeError and anything `schnorr.verify` throws. -/
def validateEvent (verify : SchnorrVerify) (event : NostrEvent) : ValidationResult :=
  let computedId := computedEventId event
  let idMatch := computedId == event.id
  let idErrors : List Str := if idMatch then [] else [idMismatchMsg]
  let sigStep : Bool × List Str :=
    match hexToBytes event.id with
    | none => (false, [sigFailMsg rangeErrMsg])
    | some messageHash =>
      match hexToBytes event.sig with
      | none => (false, [sigFailMsg rangeErrMsg])
      | some signature =>
        match hexToBytes event.pubkey with
        | none => (false, [sigFailMsg rangeErrMsg])
        | some pubkey =>
          match verify signature messageHash pubkey with
          | .ok b => (b, if b then [] else [invalidSigMsg])
          | .error m => (false, [sigFailMsg m])
  let sigValid := sigStep.1
  let errors := idErrors ++ sigStep.2
  { isValid := idMatch && sigValid && errors.isEmpty
    idMatch := idMatch
    sigValid := sigValid
    errors := errors }

/-! ## General lemmas about the embedded primitives -/

theorem dropWhile_dropWhile_self (p : Char → Bool) (l : Str) :
    (l.dropWhile p).dropWhile p = l.dropWhile p := by
  induction l with
  | nil => rfl
  | cons c t ih =>
    cases hc : p c <;> simp [List.dropWhile_cons, hc, ih]

theorem trimRight_trimRight (l : Str) : trimRight (trimRight l) = trimRight l := by
  simp [trimRight, List.reverse_reverse, dropWhile_dropWhile_self]

/-- A list unchanged by `dropWhile` has a head that fails the predicate. -/
theorem head_fails_of_dropWhile_cons_eq (p : Char → Bool) (c : Char) (t : Str)
    (h : (c :: t).dropWhile p = c :: t) : p c = false := by
  cases hc : p c
  · rfl
  · rw [List.dropWhile_cons, hc, if_pos rfl] at h
    have hle := (List.dropWhile_sublist (l := t) (p := p)).length_le
    rw [h] at hle
    simp at hle

/-- A list unchanged by `dropWhile` stays unchanged after `take`: only the
head can matter. -/
theorem dropWhile_take_of_dropWhile_eq_self (p : Char → Bool) (l : Str) (n : Nat)
    (h : l.dropWhile p = l) : (l.take n).dropWhile p = l.take n := by
  cases l with
  | nil => simp
  | cons c t =>
    have hc := head_fails_of_dropWhile_cons_eq p c t h
    cases n with
    | zero => simp
    | succ m => simp [List.dropWhile_cons, hc]

/-- Splitting off what `trimRight` removes. -/
theorem trimRight_append_eq (l : Str) :
    l = trimRight l ++ (l.reverse.takeWhile isJsWhitespace).reverse := by
  conv_lhs => rw [← List.reverse_reverse l,
    ← List.takeWhile_append_dropWhile (p := isJsWhitespace) (l := l.reverse)]
  rw [List.reverse_append, trimRight]

/-- `trimRight` of a list unchanged by `dropWhile` is still unchanged by
`dropWhile`. -/
theorem dropWhile_trimRight_of_dropWhile_eq_self (l : Str)
    (h : l.dropWhile isJsWhitespace = l) :
    (trimRight l).dropWhile isJsWhitespace = trimRight l := by
  have htake : trimRight l = l.take (trimRight l).length := by
    conv_lhs => rw [← List.take_left (trimRight l) (l.reverse.takeWhile isJsWhitespace).reverse]
    rw [← trimRight_append_eq]
  rw [htake]
  exact dropWhile_take_of_dropWhile_eq_self _ _ _ h

/-- JS `trim` is idempotent. -/
theorem jsTrim_idem (s : Str) : jsTrim (jsTrim s) = jsTrim s := by
  show trimRight ((trimRight (s.dropWhile isJsWhitespace)).dropWhile isJsWhitespace) =
    trimRight (s.dropWhile isJsWhitespace)
  rw [dropWhile_trimRight_of_dropWhile_eq_self _ (dropWhile_dropWhile_self _ s),
    trimRight_trimRight]

/-! ## C10 — the classifier is invariant under surrounding whitespace -/

/-- C10: `classify` is invariant under leading and trailing whitespace for
every classification branch: for every input string `s`,
`parseInput s = parseInput (trim s)` — the classifier trims once up front and
every later step reads only the trimmed text. -/
theorem parseInput_trim_invariant (s : Str) : parseInput s = parseInput (jsTrim s) := by
  unfold parseInput
  rw [jsTrim_idem]

/-! ## C2 — the `is_valid` invariant of the validator -/

/-- C2: every `ValidationResult` returned by `validateEvent` satisfies
`is_valid = id_matches && signature_valid && errors.isEmpty` — the result is
assembled with exactly that conjunction. -/
theorem validateEvent_isValid_invariant (verify : SchnorrVerify) (event : NostrEvent) :
    (validateEvent verify event).isValid =
      ((validateEvent verify event).idMatch && (validateEvent verify event).sigValid &&
        (validateEvent verify event).errors.isEmpty) := by
  simp only [validateEvent]

/-! ## C3 — the signature check is independent of the id check -/

/-- The signature-verification block of `validateEvent` in isolation: a
function of the verifier and the event's `id`, `sig` and `pubkey` strings
only; in particular it does not read the recomputed hash or the id-check
outcome. -/
def sigCheckSpec (verify : SchnorrVerify) (id sig pubkey : Str) : Bool :=
  match hexToBytes id with
  | none => false
  | some messageHash =>
    match hexToBytes sig with
    | none => false
    | some signature =>
      match hexToBytes pubkey with
      | none => false
      | some pk =>
        match verify signature messageHash pk with
        | .ok b => b
        | .error _ => false

/-- C3: `validateEvent` reports `signature_valid` regardless of the id-check
outcome: for every verifier and every event, the reported `sigValid` equals
`sigCheckSpec` applied to the event's `id`, `sig` and `pubkey` alone, so an
id mismatch can neither skip nor alter the signature check, and both flags
are fields of every returned result. -/
theorem validateEvent_sigValid_independent (verify : SchnorrVerify) (event : NostrEvent) :
    (validateEvent verify event).sigValid =
      sigCheckSpec verify event.id event.sig event.pubkey := by
  cases hid : hexToBytes event.id with
  | none => simp [validateEvent, sigCheckSpec, hid]
  | some mh =>
    cases hsg : hexToBytes event.sig with
    | none => simp [validateEvent, sigCheckSpec, hid, hsg]
    | some sg =>
      cases hpk : hexToBytes event.pubkey with
      | none => simp [validateEvent, sigCheckSpec, hid, hsg, hpk]
      | some pk =>
        cases hv : verify sg mh pk with
        | ok b => simp [validateEvent, sigCheckSpec, hid, hsg, hpk, hv]
        | error m => simp [validateEvent, sigCheckSpec, hid, hsg, hpk, hv]

/-! ## C1 — how `computed_id` and `id_matches` are formed -/

/-- C1 (amended): `validateEvent` computes `computed_id` as the lowercase hex
encoding of the SHA-256 digest of the UTF-8 bytes of the compact
serialization of `[0, pubkey, created_at, kind, tags, content]`
(`computedEventId`), and sets `id_matches` by an exact, case-sensitive string
comparison of that value with `event.id` as given — `event.id` is *not*
normalized to lowercase first. When `id_matches` is false, the message
`"Event ID does not match computed hash"` is appended to `errors`. -/
theorem validateEvent_idMatch_spec (verify : SchnorrVerify) (event : NostrEvent) :
    (validateEvent verify event).idMatch = (computedEventId event == event.id) ∧
    ((validateEvent verify event).idMatch = false →
      idMismatchMsg ∈ (validateEvent verify event).errors) := by
  refine ⟨rfl, fun h => ?_⟩
  have h' : (computedEventId event == event.id) = false := h
  simp [validateEvent, h']

/-- A verifier that always answers `false` (stands in for `schnorr.verify`
at inputs whose verdict is irrelevant to the property at hand). -/
def verifyNever : SchnorrVerify := fun _ _ _ => .ok false

/-- An event whose `id` is the *uppercase* hex of the correct SHA-256 hash of
its canonical serialization `[0,"",0,0,[],""]`. -/
def cexUpperIdEvent : NostrEvent :=
  { id := "AE5164A4FF06CA0F58560C4D355248DE1491F6CB1815ED12840167D0005B3CA5".toList
    pubkey := []
    created_at := 0
    kind := 0
    tags := []
    content := []
    sig := [] }

set_option maxRecDepth 100000 in
set_option maxHeartbeats 1000000 in
/-- C1 (counterexample): for `cexUpperIdEvent`, both sides normalized to
lowercase hex are equal (`event.id` lower-cased *is* the computed id), so the
claim's comparison-after-normalization would make `id_matches` true; the code
compares without normalizing and reports `id_matches = false`, appending the
mismatch error. -/
theorem validateEvent_idMatch_no_normalization_cex :
    (validateEvent verifyNever cexUpperIdEvent).idMatch = false ∧
    cexUpperIdEvent.id.map asciiLower = computedEventId cexUpperIdEvent ∧
    idMismatchMsg ∈ (validateEvent verifyNever cexUpperIdEvent).errors := by
  refine ⟨by decide, by decide, ?_⟩
  exact (validateEvent_idMatch_spec verifyNever cexUpperIdEvent).2 (by decide)

/-! ## C5 — totality of the classifier -/

/-- Syntactically invalid JSON that fails every other pattern. -/
def notJsonStr : Str := "\x7binvalid json".toList

/-- A string matching the bech32 pattern whose data part is too short to be a
valid bech32 payload (malformed bech32). -/
def badBechStr : Str := "npub1aaa".toList

/-- C5: `classify` is total: every input yields either no match or a
`ParsedResult` (an event or an identifier) — the embedding is a total
function into `Option ParsedResult`, with every throwing JS operation
(JSON.parse, bech32 decoding) modelled as a caught `none` — and, concretely,
syntactically invalid JSON that fails every other pattern, and a
pattern-matching but malformed bech32 string, both degrade to no match
rather than an error. -/
theorem parseInput_total_classification :
    (∀ s : Str, parseInput s = none ∨
      (∃ v, parseInput s = some (.event v)) ∨
      (∃ d, parseInput s = some (.identifier d))) ∧
    parseInput notJsonStr = none ∧
    parseInput badBechStr = none := by
  refine ⟨fun s => ?_, rfl, rfl⟩
  cases h : parseInput s with
  | none => exact Or.inl rfl
  | some r =>
    cases r with
    | event v => exact Or.inr (Or.inl ⟨v, rfl⟩)
    | identifier d => exact Or.inr (Or.inr ⟨d, rfl⟩)

/-! ## C8 — the kind field as a big-endian integer -/

/-- The spec's decoding of a big-endian unsigned integer of arbitrary byte
length: repeated `result = result * 256 + byte`. -/
def specBigEndian (bytes : List Nat) : Nat :=
  bytes.foldl (fun result b => result * 256 + b) 0

theorem specBigEndian_fold_mono (bytes : List Nat) (a : Nat) :
    a ≤ bytes.foldl (fun result b => result * 256 + b) a := by
  induction bytes generalizing a with
  | nil => exact Nat.le_refl a
  | cons b bs ih =>
    have h1 : a ≤ a * 256 + b := by
      have := Nat.le_mul_of_pos_right a (show 0 < 256 by omega)
      omega
    exact Nat.le_trans h1 (ih (a * 256 + b))

theorem jsShl8_small (a : Nat) (h : a * 256 < 2147483648) :
    jsShl8 (a : Nat) = (a : Int) * 256 := by
  have ha : a < 4294967296 := by
    have := Nat.le_mul_of_pos_right a (show 0 < 256 by omega)
    omega
  unfold jsShl8 toUint32 toInt32
  have h1 : ((a : Int) % 4294967296) = (a : Int) :=
    Int.emod_eq_of_lt (by positivity) (by exact_mod_cast ha)
  rw [h1]
  simp only [Int.toNat_natCast]
  rw [Nat.mod_eq_of_lt (by omega)]
  rw [if_pos (by omega)]
  push_cast
  ring

theorem bytesToNumber_foldAux (bytes : List Nat) (a : Nat)
    (h : bytes.foldl (fun r b => r * 256 + b) a < 2147483648) :
    bytes.foldl (fun (r : Int) (b : Nat) => jsShl8 r + (b : Int)) (a : Int) =
      ((bytes.foldl (fun r b => r * 256 + b) a : Nat) : Int) := by
  induction bytes generalizing a with
  | nil => rfl
  | cons b bs ih =>
    simp only [List.foldl_cons] at h ⊢
    have hmono := specBigEndian_fold_mono bs (a * 256 + b)
    rw [jsShl8_small a (by omega)]
    have hstep : (a : Int) * 256 + (b : Int) = ((a * 256 + b : Nat) : Int) := by
      push_cast
      ring
    rw [hstep]
    exact ih (a * 256 + b) h

/-- C8 (amended): a type-3 (“kind”) TLV record populates `kind_number` with
`bytesToNumber`, whose fold uses the 32-bit signed JS shift `(r << 8) + b`;
whenever the spec's pure big-endian fold stays below 2^31 — in particular for
every kind value a 4-byte record can carry below 2^31 — the two agree, so the
populated `kind_number` is the big-endian value of the bytes. -/
theorem applyTLVField_kind_bigEndian (t : IdKind) (value : List Nat) (d : IdData)
    (h : specBigEndian value < 2147483648) :
    (applyTLVField t 3 value d).kind = some ((specBigEndian value : Int)) := by
  have h1 : (applyTLVField t 3 value d).kind = some (bytesToNumber value) := rfl
  rw [h1]
  have h2 : bytesToNumber value = (specBigEndian value : Int) := by
    have := bytesToNumber_foldAux value 0 h
    simpa [bytesToNumber, specBigEndian] using this
  rw [h2]

/-- C8 (witness): the two-byte record value `[1, 226]` decodes to kind 482. -/
theorem applyTLVField_kind_bigEndian_witness :
    specBigEndian [1, 226] < 2147483648 ∧
    (applyTLVField IdKind.nevent 3 [1, 226] {}).kind = some ((specBigEndian [1, 226] : Int)) :=
  ⟨by decide, applyTLVField_kind_bigEndian IdKind.nevent [1, 226] {} (by decide)⟩

/-- C8 (counterexample): on the 4-byte value `[128, 0, 0, 0]` the code's
32-bit shift wraps to `-2147483648`, while the claimed arbitrary-length
big-endian fold gives `2147483648`; the populated `kind_number` is the
wrapped, negative value. -/
theorem bytesToNumber_wraps_cex :
    bytesToNumber [128, 0, 0, 0] = -2147483648 ∧
    specBigEndian [128, 0, 0, 0] = 2147483648 ∧
    (applyTLVField IdKind.nevent 3 [128, 0, 0, 0] {}).kind = some (-2147483648) ∧
    ((-2147483648 : Int) = 2147483648 → False) := by
  refine ⟨by decide, by decide, by decide, by decide⟩

/-! ## C4 — which inputs classify as an event -/

theorem bech32IdStep_no_event (t : Str) (v : Js) :
    bech32IdStep t ≠ some (.event v) := by
  unfold bech32IdStep
  cases hm : matchesBech32Pattern t
  · simp
  · cases hd : decodeBech32Identifier t <;> simp [hd]

theorem nostrUriStep_no_event (t : Str) (v : Js) :
    nostrUriStep t ≠ some (.event v) := by
  unfold nostrUriStep
  cases hm : strStarts nostrScheme t
  · simp
  · cases hd : decodeBech32Identifier (t.drop 6) <;> simp [hd]

theorem hex64Step_no_event (t : Str) (v : Js) :
    hex64Step t ≠ some (.event v) := by
  unfold hex64Step
  cases hm : matchesHex64 t <;> simp

/-- Forward direction of the event-classification characterization. -/
theorem parseInput_event_elim (s : Str) (v : Js)
    (h : parseInput s = some (.event v)) :
    jsonParse (jsTrim s) = some v ∧ isValidEventStructure v = true := by
  simp only [parseInput, jsonEventStep] at h
  have hrest : ∀ hch : (match bech32IdStep (jsTrim s) with
      | some r => some r
      | none =>
        match nostrUriStep (jsTrim s) with
        | some r => some r
        | none => hex64Step (jsTrim s)) = some (ParsedResult.event v), False := by
    intro hch
    cases hb : bech32IdStep (jsTrim s) with
    | some r =>
      rw [hb] at hch
      simp only [Option.some.injEq] at hch
      exact bech32IdStep_no_event _ v (hch ▸ hb)
    | none =>
      rw [hb] at hch
      simp only [] at hch
      cases hn : nostrUriStep (jsTrim s) with
      | some r =>
        rw [hn] at hch
        simp only [Option.some.injEq] at hch
        exact nostrUriStep_no_event _ v (hch ▸ hn)
      | none =>
        rw [hn] at hch
        simp only [] at hch
        exact hex64Step_no_event _ v hch
  cases hp : jsonParse (jsTrim s) with
  | none =>
    rw [hp] at h
    simp only [] at h
    exact absurd h (fun hch => hrest hch)
  | some p =>
    rw [hp] at h
    simp only [] at h
    cases hv : isValidEventStructure p with
    | false =>
      rw [hv] at h
      simp only [Bool.false_eq_true, if_false] at h
      exact absurd h (fun hch => hrest hch)
    | true =>
      rw [hv] at h
      simp only [if_true] at h
      simp only [Option.some.injEq, ParsedResult.event.injEq] at h
      subst h
      exact ⟨rfl, hv⟩

/-- C4 (amended): `classify` returns an `Event` result if and only if the
trimmed input parses as JSON to a value passing the structural check — an
object whose `id`, `pubkey`, `content`, `sig` are strings, `created_at` and
`kind` are numbers, and `tags` is a sequence (of arbitrary values: the code
checks only `Array.isArray`, not that the elements are sequences of
strings); any structural mismatch merely fails this branch and falls through
to the later classification steps, which can only produce identifiers. -/
theorem parseInput_event_iff (s : Str) (v : Js) :
    parseInput s = some (.event v) ↔
      jsonParse (jsTrim s) = some v ∧ isValidEventStructure v = true := by
  constructor
  · exact parseInput_event_elim s v
  · rintro ⟨h1, h2⟩
    simp only [parseInput, jsonEventStep]
    rw [h1]
    simp [h2]

/-- The claim's stricter structural condition, following the spec's words:
in addition to the other field checks, `tags` must be a sequence of
sequences of strings (second definition, for comparison with
`isValidEventStructure`). -/
def specEventStructureStrict (v : Js) : Bool :=
  match v with
  | .objV fields =>
    isStrProp (jsGet fields "id".toList) &&
    isStrProp (jsGet fields "pubkey".toList) &&
    isNumProp (jsGet fields "created_at".toList) &&
    isNumProp (jsGet fields "kind".toList) &&
    (match jsGet fields "tags".toList with
     | some (.arrV tags) =>
       tags.all fun tag =>
         match tag with
         | .arrV entries =>
           entries.all fun e =>
             match e with
             | .strV _ => true
             | _ => false
         | _ => false
     | _ => false) &&
    isStrProp (jsGet fields "content".toList) &&
    isStrProp (jsGet fields "sig".toList)
  | _ => false

/-- JSON text of an object with all seven fields present and the six scalar
fields correctly typed, but whose `tags` is `[1]` — an array that is not a
sequence of sequences of strings. -/
def cexTagsJsonStr : Str :=
  "\x7b\"id\":\"\",\"pubkey\":\"\",\"created_at\":0,\"kind\":0,\"tags\":[1],\"content\":\"\",\"sig\":\"\"\x7d".toList

/-- The value `JSON.parse` yields for `cexTagsJsonStr`. -/
def cexTagsJsonVal : Js :=
  .objV
    [("id".toList, .strV []), ("pubkey".toList, .strV []),
     ("created_at".toList, .numV false 0 0), ("kind".toList, .numV false 0 0),
     ("tags".toList, .arrV [.numV false 1 0]),
     ("content".toList, .strV []), ("sig".toList, .strV [])]

/-- C4 (counterexample): `classify` returns an `Event` for a JSON object
whose `tags` is `[1]`, which is not a sequence of sequences of strings — the
claim's "if and only if" with the strict tags typing fails on the code,
which checks only that `tags` is an array. -/
theorem parseInput_event_tags_cex :
    parseInput cexTagsJsonStr = some (.event cexTagsJsonVal) ∧
    specEventStructureStrict cexTagsJsonVal = false := by
  constructor
  · rfl
  · rfl

/-! ## C6 — a length byte that reads past the end of the payload -/

/-- C6 (amended): a TLV record whose length byte would read past the end of
the byte stream does not make decoding fail: `slice` clamps the value to the
bytes that remain, the record is still pushed (with its stated length byte
and the truncated value), its fields are still applied, and the loop stops
after it — the decoder returns a (partial) identifier rather than an
error. -/
theorem decodeTLVList_overrun (t : IdKind) (fuel : Nat) (tlvType len : Nat)
    (r : List Nat) (d : IdData) (tlv : List TLVEntry)
    (hover : r.length < len) :
    decodeTLVList t (fuel + 1) (tlvType :: len :: r) d tlv =
      (applyTLVField t tlvType r d,
       tlv ++ [⟨tlvType, getTLVTypeName tlvType, some len, bytesToHex r⟩]) := by
  simp only [decodeTLVList]
  rw [List.take_of_length_le (by omega), List.drop_eq_nil_of_le (by omega)]
  simp only [decodeTLVList]

/-- C6 (witness): the loop on the payload `[0, 5, 1]` — one record of type 0
claiming five value bytes with only one available — returns that single
clamped record. -/
theorem decodeTLVList_overrun_witness :
    ([1] : List Nat).length < 5 ∧
    decodeTLVList IdKind.nevent 3 [0, 5, 1] {} [] =
      (applyTLVField IdKind.nevent 0 [1] {},
       [] ++ [⟨0, getTLVTypeName 0, some 5, bytesToHex [1]⟩]) :=
  ⟨by decide, decodeTLVList_overrun IdKind.nevent 2 0 5 [1] {} [] (by decide)⟩

/-- A valid bech32 `nevent` string whose TLV payload is `[0, 5, 1]`: a type-0
record claiming 5 value bytes where only 1 remains. -/
def neventTruncStr : Str := "nevent1qqzszz0wjvc".toList

set_option maxRecDepth 100000 in
set_option maxHeartbeats 1000000 in
/-- C6 (counterexample): on a composite identifier whose TLV stream is
truncated (a length byte reading past the end), `decodeBech32Identifier`
does *not* fail: it returns an identifier populated from the clamped record
— contradicting "fails with TruncatedPayload and returns no partial
identifier". -/
theorem decodeBech32Identifier_truncated_cex :
    bech32Decode neventTruncStr 1023 = some ("nevent".toList, [0, 0, 2, 16, 2]) ∧
    bech32FromWords [0, 0, 2, 16, 2] = some [0, 5, 1] ∧
    ([0, 5, 1] : List Nat).length < 0 + 2 + 5 ∧
    decodeBech32Identifier neventTruncStr =
      some ⟨.nevent, { id := some "01".toList },
        some [⟨0, "special".toList, some 5, "01".toList⟩]⟩ := by
  exact ⟨by decide, by decide, by decide, by decide⟩

/-! ## C7 — the `tlv_records` tiling invariant -/

/-- Well-formedness of a TLV stream, following the spec's chunking: reading
`[type][length][value]` records sequentially consumes the stream exactly,
with every stated length available. Fuelled like `decodeTLVList`. -/
def tlvWFGo : Nat → List Nat → Bool
  | _, [] => true
  | 0, _ => false
  | _ + 1, [_] => false
  | fuel + 1, _ :: len :: rest => decide (len ≤ rest.length) && tlvWFGo fuel (rest.drop len)

/-- A TLV stream the records of which tile it exactly. -/
def tlvWF (s : List Nat) : Bool := tlvWFGo s.length s

/-- The records of a TLV stream read off by sequential `2 + length` chunking,
following the spec's description (second definition, for comparison with the
code's loop). -/
def specRecordsGo : Nat → List Nat → List TLVEntry
  | _, [] => []
  | 0, _ => []
  | _ + 1, [_] => []
  | fuel + 1, tlvType :: len :: rest =>
    if len ≤ rest.length then
      ⟨tlvType, getTLVTypeName tlvType, some len, bytesToHex (rest.take len)⟩ ::
        specRecordsGo fuel (rest.drop len)
    else []

/-- The chunked records of a whole stream. -/
def specRecords (s : List Nat) : List TLVEntry := specRecordsGo s.length s

theorem decodeTLVList_tlv_spec (f : Nat) :
    ∀ (t : IdKind) (s : List Nat) (d : IdData) (acc : List TLVEntry),
    s.length ≤ f → tlvWFGo f s = true →
    (decodeTLVList t f s d acc).2 = acc ++ specRecordsGo f s := by
  induction f with
  | zero =>
    intro t s d acc hlen hwf
    cases s with
    | nil => simp [decodeTLVList, specRecordsGo]
    | cons a r => simp at hlen
  | succ f ih =>
    intro t s d acc hlen hwf
    match s with
    | [] => simp [decodeTLVList, specRecordsGo]
    | [x] => simp [tlvWFGo] at hwf
    | tlvType :: len :: rest =>
      simp only [tlvWFGo, Bool.and_eq_true, decide_eq_true_eq] at hwf
      obtain ⟨hle, hwf'⟩ := hwf
      simp only [decodeTLVList, specRecordsGo, if_pos hle]
      have hrec := ih t (rest.drop len) (applyTLVField t tlvType (rest.take len) d)
        (acc ++ [TLVEntry.mk tlvType (getTLVTypeName tlvType) (some len)
          (bytesToHex (rest.take len))])
        (by simp at hlen ⊢; omega) hwf'
      rw [hrec]
      simp

theorem natToHexStr_byte_length (b : Nat) (hb : b < 256) :
    (padStart2 (natToHexStr b)).length = 2 := by
  by_cases h16 : b < 16
  · simp [natToHexStr, natToHexStrGo, h16, padStart2]
  · have hb1 : ∃ f, b = f + 1 := ⟨b - 1, by omega⟩
    obtain ⟨f, rfl⟩ := hb1
    have hdiv : (f + 1) / 16 < 16 := by omega
    simp [natToHexStr, natToHexStrGo, h16, hdiv, padStart2]

theorem bytesToHex_length (bs : List Nat) (h : ∀ b ∈ bs, b < 256) :
    (bytesToHex bs).length = 2 * bs.length := by
  induction bs with
  | nil => simp [bytesToHex]
  | cons b t ih =>
    simp only [bytesToHex, List.map_cons, List.flatten_cons, List.length_append,
      List.length_cons]
    rw [natToHexStr_byte_length b (h b (by simp))]
    have := ih (fun x hx => h x (by simp [hx]))
    simp only [bytesToHex] at this
    omega

theorem specRecordsGo_props (f : Nat) :
    ∀ (s : List Nat), s.length ≤ f → tlvWFGo f s = true → (∀ b ∈ s, b < 256) →
    (∀ e ∈ specRecordsGo f s, e.length = some (e.value.length / 2)) ∧
    ((specRecordsGo f s).map (fun e => 2 + e.length.getD 0)).sum = s.length := by
  induction f with
  | zero =>
    intro s hlen hwf hbytes
    cases s with
    | nil => simp [specRecordsGo]
    | cons a r => simp at hlen
  | succ f ih =>
    intro s hlen hwf hbytes
    match s with
    | [] => simp [specRecordsGo]
    | [x] => simp [tlvWFGo] at hwf
    | tlvType :: len :: rest =>
      simp only [tlvWFGo, Bool.and_eq_true, decide_eq_true_eq] at hwf
      obtain ⟨hle, hwf'⟩ := hwf
      have hrec := ih (rest.drop len) (by simp at hlen ⊢; omega) hwf'
        (fun b hb => hbytes b (by simp [List.mem_of_mem_drop hb]))
      have hval : (bytesToHex (rest.take len)).length = 2 * len := by
        rw [bytesToHex_length _ (fun b hb => hbytes b (by simp [List.mem_of_mem_take hb]))]
        simp [List.length_take, Nat.min_eq_left hle]
      constructor
      · intro e he
        simp only [specRecordsGo, if_pos hle, List.mem_cons] at he
        rcases he with rfl | he
        · simp [hval]
        · exact hrec.1 e he
      · simp only [specRecordsGo, if_pos hle, List.map_cons, List.sum_cons]
        rw [hrec.2]
        simp [List.length_drop]
        omega

/-- C7 (amended): for every decoded `nevent`/`nprofile`/`naddr` payload whose
TLV records tile it exactly (`tlvWF` — every stated length available, which
every spec-conformant encoder produces), the `tlv` sequence equals the
records read off by sequential `2 + length` chunking from offset 0
(`specRecords` — so the records appear in byte-offset order), each record's
`length` equals the byte length of its `value` hex (its length divided by
2), and the `2 + length` chunk sizes sum to the payload length — no gaps and
no overlap. On a stream with a length byte reading past the end these
invariants fail (see the counterexample), so the tiling hypothesis is
necessary. -/
theorem decodeTLV_records_spec (t : IdKind) (data : List Nat)
    (hwf : tlvWF data = true) (hbytes : ∀ b ∈ data, b < 256) :
    (decodeTLV t data).tlv = some (specRecords data) ∧
    (∀ e ∈ specRecords data, e.length = some (e.value.length / 2)) ∧
    ((specRecords data).map (fun e => 2 + e.length.getD 0)).sum = data.length := by
  have hmain := decodeTLVList_tlv_spec data.length t data {} [] (Nat.le_refl _) hwf
  have hprops := specRecordsGo_props data.length data (Nat.le_refl _) hwf hbytes
  refine ⟨?_, hprops.1, hprops.2⟩
  cases hres : decodeTLVList t data.length data {} [] with
  | mk d2 tlv2 =>
    rw [hres] at hmain
    simp only [List.nil_append] at hmain
    unfold decodeTLV
    rw [hres]
    simp only [specRecords]
    rw [hmain]

/-- A well-formed two-record TLV payload: type 0 with one value byte, then
type 3 with two value bytes. -/
def tlvWitnessData : List Nat := [0, 1, 7, 3, 2, 0, 5]

/-- C7 (witness): the tiling invariants at `tlvWitnessData`. -/
theorem decodeTLV_records_spec_witness :
    tlvWF tlvWitnessData = true ∧ (∀ b ∈ tlvWitnessData, b < 256) ∧
    ((decodeTLV IdKind.nevent tlvWitnessData).tlv = some (specRecords tlvWitnessData) ∧
     (∀ e ∈ specRecords tlvWitnessData, e.length = some (e.value.length / 2)) ∧
     ((specRecords tlvWitnessData).map (fun e => 2 + e.length.getD 0)).sum =
       tlvWitnessData.length) :=
  ⟨by decide, by decide,
   decodeTLV_records_spec IdKind.nevent tlvWitnessData (by decide) (by decide)⟩

set_option maxRecDepth 100000 in
set_option maxHeartbeats 1000000 in
/-- C7 (counterexample): the truncated `nevent` payload `[0, 5, 1]` decodes
successfully (it is what `decodeBech32Identifier` returns for
`neventTruncStr`), yet its single record carries length byte 5 while its
`value` hex holds one byte, and the `2 + length` chunk sum is 7, not the
payload length 3 — the claimed invariant fails on a successfully decoded
payload. -/
theorem decodeTLV_records_invariant_cex :
    decodeBech32Identifier neventTruncStr = some (decodeTLV IdKind.nevent [0, 5, 1]) ∧
    (decodeTLV IdKind.nevent [0, 5, 1]).tlv =
      some [⟨0, "special".toList, some 5, "01".toList⟩] ∧
    (some (5 : Nat) = some (("01".toList : Str).length / 2) → False) ∧
    (([⟨0, "special".toList, some 5, "01".toList⟩] : List TLVEntry).map
      (fun e => 2 + e.length.getD 0)).sum = 7 ∧
    ([0, 5, 1] : List Nat).length = 3 := by
  exact ⟨by decide, by decide, by decide, by decide, by decide⟩

/-! ## C9 — stripping the `nostr:` scheme -/

/-- `JSON.parse` fails on any text whose first two characters are `n` and
something other than `u`: the `null` literal is the only JSON value starting
with `n`. -/
theorem parseJsonValue_n_not_u (fuel : Nat) (c : Char) (rest : Str) (h : c ≠ 'u') :
    parseJsonValue fuel ('n' :: c :: rest) = none := by
  cases fuel with
  | zero => rfl
  | succ f =>
    have hws : jsonSkipWs ('n' :: c :: rest) = 'n' :: c :: rest := by
      simp [jsonSkipWs, List.dropWhile_cons, isJsonWs]
    have hcu : ('u' == c) = false := by
      simp only [beq_eq_false_iff_ne, ne_eq]
      exact fun he => h he.symm
    simp [parseJsonValue, hws, strStarts, hcu, parseNumber, digitVal]

theorem jsonParse_n_not_u (c : Char) (rest : Str) (h : c ≠ 'u') :
    jsonParse ('n' :: c :: rest) = none := by
  simp [jsonParse, parseJsonValue_n_not_u _ c rest h]

theorem strStarts_two (a b : Char) (p s : Str) (h : strStarts (a :: b :: p) s = true) :
    ∃ r, s = a :: b :: r := by
  cases s with
  | nil => simp [strStarts] at h
  | cons x t =>
    cases t with
    | nil => simp [strStarts] at h
    | cons y r =>
      simp only [strStarts, Bool.and_eq_true, beq_iff_eq] at h
      obtain ⟨h1, h2, _⟩ := h
      exact ⟨r, by rw [h1, h2]⟩

/-- A string matching the classifier's bech32 pattern starts with one of the
six prefixes, whose second character is never `u`, so it can never parse as
JSON. -/
theorem jsonParse_none_of_bech32 (s : Str) (h : matchesBech32Pattern s = true) :
    jsonParse s = none := by
  simp only [matchesBech32Pattern, bech32Hrps, List.any_cons, List.any_nil,
    Bool.or_eq_true, Bool.and_eq_true, List.cons_append, List.nil_append] at h
  rcases h with ⟨⟨hs, _⟩, _⟩ | ⟨⟨hs, _⟩, _⟩ | ⟨⟨hs, _⟩, _⟩ | ⟨⟨hs, _⟩, _⟩ | ⟨⟨hs, _⟩, _⟩ | ⟨⟨hs, _⟩, _⟩ | hfalse
  · obtain ⟨r, rfl⟩ := strStarts_two _ _ _ _ hs
    exact jsonParse_n_not_u _ _ (by decide)
  · obtain ⟨r, rfl⟩ := strStarts_two _ _ _ _ hs
    exact jsonParse_n_not_u _ _ (by decide)
  · obtain ⟨r, rfl⟩ := strStarts_two _ _ _ _ hs
    exact jsonParse_n_not_u _ _ (by decide)
  · obtain ⟨r, rfl⟩ := strStarts_two _ _ _ _ hs
    exact jsonParse_n_not_u _ _ (by decide)
  · obtain ⟨r, rfl⟩ := strStarts_two _ _ _ _ hs
    exact jsonParse_n_not_u _ _ (by decide)
  · obtain ⟨r, rfl⟩ := strStarts_two _ _ _ _ hs
    exact jsonParse_n_not_u _ _ (by decide)
  · simp at hfalse

/-- `"nostr:" + s` never matches the classifier's bech32 pattern: each of the
six prefixes disagrees with `nostr` within its first five characters. -/
theorem matchesBech32Pattern_nostr (s : Str) :
    matchesBech32Pattern (nostrScheme ++ s) = false := by
  simp [matchesBech32Pattern, bech32Hrps, nostrScheme, strStarts]

theorem jsTrim_fix_dropWhile (s : Str) (h : jsTrim s = s) :
    s.dropWhile isJsWhitespace = s := by
  have hsub1 := List.dropWhile_sublist (l := s) (p := isJsWhitespace)
  have hsub2 : List.Sublist (jsTrim s) (s.dropWhile isJsWhitespace) := by
    have hs := List.dropWhile_sublist
      (l := (s.dropWhile isJsWhitespace).reverse) (p := isJsWhitespace)
    have := hs.reverse
    rwa [List.reverse_reverse] at this
  apply hsub1.eq_of_length_le
  have l1 := hsub2.length_le
  rw [h] at l1
  exact l1

theorem jsTrim_fix_trimRight (s : Str) (h : jsTrim s = s) : trimRight s = s := by
  have hd := jsTrim_fix_dropWhile s h
  unfold jsTrim at h
  rw [hd] at h
  exact h

/-- Appending `nostr:` in front of a trimmed, nonempty string yields a
trimmed string: the scheme's head is not whitespace and the tail's last
character was already known not to be. -/
theorem jsTrim_nostr_append (s : Str) (hne : s ≠ []) (h : jsTrim s = s) :
    jsTrim (nostrScheme ++ s) = nostrScheme ++ s := by
  have htr := jsTrim_fix_trimRight s h
  unfold jsTrim
  have hdw : (nostrScheme ++ s).dropWhile isJsWhitespace = nostrScheme ++ s := by
    simp [nostrScheme, List.cons_append, List.dropWhile_cons, isJsWhitespace]
  rw [hdw]
  unfold trimRight
  rw [List.reverse_append]
  have hrev : s.reverse.dropWhile isJsWhitespace = s.reverse := by
    unfold trimRight at htr
    have h2 := congrArg List.reverse htr
    rwa [List.reverse_reverse] at h2
  cases hsr : s.reverse with
  | nil =>
    exact absurd (by simpa using congrArg List.reverse hsr) hne
  | cons c t =>
    have hc : isJsWhitespace c = false := by
      apply head_fails_of_dropWhile_cons_eq isJsWhitespace c t
      rw [← hsr]
      exact hrev
    rw [List.cons_append, List.dropWhile_cons, hc]
    simp only [Bool.false_eq_true, if_false]
    have hassoc : (c :: (t ++ nostrScheme.reverse)) = (c :: t) ++ nostrScheme.reverse := rfl
    rw [hassoc, List.reverse_append, List.reverse_reverse, ← hsr, List.reverse_reverse]

theorem strStarts_append (p s : Str) : strStarts p (p ++ s) = true := by
  induction p with
  | nil => rfl
  | cons a t ih => simp [strStarts, List.cons_append, ih]

/-- C9 (amended): for every string `s` with no surrounding whitespace
(`trim(s) = s`) that classify decodes to an identifier via the bech32 step,
`classify("nostr:" + s)` returns the same `DecodedIdentifier` as
`classify(s)`: the `nostr:` prefix is stripped and the remainder is decoded
by the same codec. (With leading whitespace inside `s` the prefixed form can
fail instead, because only the outer string is trimmed — see the
counterexample.) -/
theorem parseInput_nostr_strip (s : Str) (dres : DecodedIdentifier)
    (htrim : jsTrim s = s)
    (hpat : matchesBech32Pattern s = true)
    (hdec : decodeBech32Identifier s = some dres) :
    parseInput s = some (.identifier dres) ∧
    parseInput (nostrScheme ++ s) = some (.identifier dres) := by
  have hne : s ≠ [] := by
    intro hnil
    rw [hnil] at hpat
    simp [matchesBech32Pattern, bech32Hrps, strStarts] at hpat
  have hjson1 : jsonParse s = none := jsonParse_none_of_bech32 s hpat
  constructor
  · simp [parseInput, jsonEventStep, bech32IdStep, htrim, hjson1, hpat, hdec]
  · have htrim2 := jsTrim_nostr_append s hne htrim
    have hjson2 : jsonParse (nostrScheme ++ s) = none :=
      jsonParse_n_not_u 'o' ('s' :: 't' :: 'r' :: ':' :: s) (by decide)
    have hpat2 := matchesBech32Pattern_nostr s
    have hdrop : (nostrScheme ++ s).drop 6 = s := List.drop_left nostrScheme s
    simp [parseInput, jsonEventStep, bech32IdStep, nostrUriStep, htrim2, hjson2,
      hpat2, strStarts_append, hdrop, hdec]

/-- A valid `npub` string (public key `00…01`). -/
def npubWitnessStr : Str :=
  "npub1qqqqqqqqqqqqqqqqqqqqqqqqqqqqqqqqqqqqqqqqqqqqqqqqqqqshp52w2".toList

/-- The identifier `npubWitnessStr` decodes to. -/
def npubWitnessId : DecodedIdentifier :=
  ⟨.npub,
   { pubkey := some "0000000000000000000000000000000000000000000000000000000000000001".toList },
   none⟩

set_option maxRecDepth 200000 in
set_option maxHeartbeats 1000000 in
/-- C9 (witness): the theorem at a concrete valid `npub` string. -/
theorem parseInput_nostr_strip_witness :
    jsTrim npubWitnessStr = npubWitnessStr ∧
    matchesBech32Pattern npubWitnessStr = true ∧
    decodeBech32Identifier npubWitnessStr = some npubWitnessId ∧
    (parseInput npubWitnessStr = some (.identifier npubWitnessId) ∧
     parseInput (nostrScheme ++ npubWitnessStr) = some (.identifier npubWitnessId)) :=
  ⟨by decide, by decide, by decide,
   parseInput_nostr_strip npubWitnessStr npubWitnessId (by decide) (by decide) (by decide)⟩

/-- The same valid `npub` string with one leading space. -/
def spaceNpubStr : Str := ' ' :: npubWitnessStr

set_option maxRecDepth 200000 in
set_option maxHeartbeats 1000000 in
/-- C9 (counterexample): `classify " npub1…"` decodes to an identifier via
the bech32 step (the classifier trims the leading space first), but
`classify ("nostr:" + " npub1…")` returns no match: only the outer string is
trimmed, `substring(6)` keeps the inner space, and bech32 decoding of
`" npub1…"` fails on the malformed prefix — so the two classifications
differ, refuting the claim for strings with surrounding whitespace. -/
theorem parseInput_nostr_strip_cex :
    parseInput spaceNpubStr = some (.identifier npubWitnessId) ∧
    parseInput (nostrScheme ++ spaceNpubStr) = none := by
  constructor
  · rfl
  · rfl
